import Mathlib

/-!
Shallow embedding of the mesh loader and the camera controller of
src/main.cpp (an OpenGL teapot viewer with directional lighting).

The loader loadOBJ (main.cpp lines 76-135) reads a line-oriented OBJ
source, stages positions and normals, fan-triangulates face lines and
produces a Mesh of flat float sequences.  Floats are modelled as exact
rationals, the C++ unsigned integer types as naturals reduced modulo
their width where the code can overflow, and aborting behaviour
(an uncaught std::stoul exception, or an out-of-bounds vector access,
which is undefined behaviour) as the none branch of Option.
-/

namespace ObjViewer

/-- The modulus 2^64 of size_t and unsigned long on the target platform. -/
def U64 : Nat := 2 ^ 64

/-- The modulus 2^32 of unsigned int. -/
def U32 : Nat := 2 ^ 32

/-- A glm::vec3, components modelled as exact rationals. -/
structure Vec3 where
  x : ℚ
  y : ℚ
  z : ℚ
deriving DecidableEq

/-- The Mesh struct of main.cpp lines 69-74: flat float sequences for
vertices and normals, a flat index sequence, and the unused edgeIndices. -/
structure Mesh where
  vertices : List ℚ
  normals : List ℚ
  indices : List Nat
  edgeIndices : List Nat
deriving DecidableEq

/-- Skip leading whitespace, as istream extraction does. -/
def dropWs : List Char → List Char
  | [] => []
  | c :: cs => if c.isWhitespace then dropWs cs else c :: cs

/-- Longest prefix of decimal digits, and the rest. -/
def takeDigits : List Char → List Char × List Char
  | [] => ([], [])
  | c :: cs =>
    if c.isDigit then
      let p := takeDigits cs
      (c :: p.1, p.2)
    else ([], c :: cs)

/-- Value of a decimal digit string. -/
def digitsToNat (ds : List Char) : Nat :=
  ds.foldl (fun acc c => 10 * acc + (c.toNat - 48)) 0

/-- Exponent part of a float literal: an optional sign then at least one
digit; with no digit the whole extraction fails (C++11 num_get fails the
conversion and the caller writes 0). -/
def scanExp (base : ℚ) (s : List Char) : Option (ℚ × List Char) :=
  let signAndRest : Int × List Char :=
    match s with
    | '-' :: r => (-1, r)
    | '+' :: r => (1, r)
    | r => (1, r)
  let p := takeDigits signAndRest.2
  if p.1.isEmpty then none
  else some (base * (10 : ℚ) ^ (signAndRest.1 * (digitsToNat p.1 : Int)), p.2)

/-- Scan one floating-point literal from the character stream, modelling
C++11 istream float extraction: skip whitespace, then an optional sign,
digits with an optional fractional part, then an optional exponent; at
least one digit must occur in the mantissa, otherwise extraction fails.
Returns the value (exact, as a rational) and the unconsumed rest. -/
def scanFloat (s : List Char) : Option (ℚ × List Char) :=
  let s1 := dropWs s
  let signAndRest : ℚ × List Char :=
    match s1 with
    | '-' :: r => (-1, r)
    | '+' :: r => (1, r)
    | r => (1, r)
  let ipPart := takeDigits signAndRest.2
  let afterDot : Bool × List Char :=
    match ipPart.2 with
    | '.' :: r => (true, r)
    | r => (false, r)
  let fpPart := if afterDot.1 then takeDigits afterDot.2 else ([], afterDot.2)
  if ipPart.1.isEmpty && fpPart.1.isEmpty then none
  else
    let mant : ℚ :=
      signAndRest.1 *
        ((digitsToNat ipPart.1 : ℚ) + (digitsToNat fpPart.1 : ℚ) / (10 : ℚ) ^ fpPart.1.length)
    match fpPart.2 with
    | 'e' :: r => scanExp mant r
    | 'E' :: r => scanExp mant r
    | r => some (mant, r)

/-- Models lines 85-88 and 91-94: glm::vec3 v; ss >> v.x >> v.y >> v.z.
C++11 num_get writes 0 to the target on a failed extraction and sets the
fail state; extractions after a failure do not run, leaving the component
at its initial value (the glm default constructor zero-initializes). -/
def readVec3 (s : List Char) : Vec3 :=
  match scanFloat s with
  | none => ⟨0, 0, 0⟩
  | some (x1, r1) =>
    match scanFloat r1 with
    | none => ⟨x1, 0, 0⟩
    | some (y1, r2) =>
      match scanFloat r2 with
      | none => ⟨x1, y1, 0⟩
      | some (z1, _) => ⟨x1, y1, z1⟩

/-- Models std::stoul(tok) in base 10: skip whitespace, an optional sign,
then at least one digit (otherwise std::invalid_argument is thrown: none);
a magnitude above ULONG_MAX throws std::out_of_range (none); a minus sign
negates the value in unsigned long arithmetic. -/
def stoul (tok : List Char) : Option Nat :=
  let s1 := dropWs tok
  let signAndRest : Bool × List Char :=
    match s1 with
    | '-' :: r => (true, r)
    | '+' :: r => (false, r)
    | r => (false, r)
  let p := takeDigits signAndRest.2
  if p.1.isEmpty then none
  else
    let v := digitsToNat p.1
    if U64 ≤ v then none
    else if signAndRest.1 then some ((U64 - v) % U64) else some v

/-- Models std::string::find(c, start): the index of the first occurrence
of c at or after start, none standing for npos. -/
def findFrom (tok : List Char) (c : Char) (start : Nat) : Option Nat :=
  match (tok.drop start).findIdx? (fun d => d == c) with
  | none => none
  | some i => some (start + i)

/-- unsigned int v = stoul(...) - 1: the subtraction happens in 64-bit
unsigned arithmetic and the result is truncated to 32 bits. -/
def sub1u32 (s : Nat) : Nat := ((s + (U64 - 1)) % U64) % U32

/-- Models the corner-token parse of lines 102-107.  pos1 and pos2 are
results of find('/'); as size_t values, npos + 1 wraps around to 0, so in
a token with no slash both substrings are the whole token and the position
number doubles as the normal number.  A stoul throw (none) aborts. -/
def parseCorner (tok : List Char) : Option (Nat × Nat) :=
  let pos1 := findFrom tok '/' 0
  let start2 : Nat :=
    match pos1 with
    | none => 0
    | some p => p + 1
  let pos2 := findFrom tok '/' start2
  let vstr : List Char :=
    match pos1 with
    | none => tok
    | some p => tok.take p
  let nstr : List Char :=
    match pos2 with
    | none => tok
    | some p => tok.drop (p + 1)
  match stoul vstr, stoul nstr with
  | some v, some n => some (sub1u32 v, sub1u32 n)
  | _, _ => none

/-- Whitespace-delimited tokens of a line remainder: models the loop
while (ss >> token) of line 101. -/
def fieldsAux : List Char → List Char → List (List Char)
  | [], acc => if acc.isEmpty then [] else [acc.reverse]
  | c :: cs, acc =>
    if c.isWhitespace then
      if acc.isEmpty then fieldsAux cs [] else acc.reverse :: fieldsAux cs []
    else fieldsAux cs (c :: acc)

/-- All whitespace-delimited tokens of a line remainder. -/
def fields (s : List Char) : List (List Char) := fieldsAux s []

/-- The size_t value faceVerts.size() - 1 of line 111: for an empty face
the subtraction wraps around to 2^64 - 1. -/
def loopBound (n : Nat) : Nat := (n + (U64 - 1)) % U64

/-- One iteration of the triangulation loop, lines 111-122: push the fan
triangle's three position indices (corners 0, i, i+1), then look up and
push the normals of corners j = 0, 1, 2 (the code indexes faceNormals by
the inner loop counter j, not by 0, i, i+1).  An out-of-range vector
access is undefined behaviour, modelled as none. -/
def triStep (tempNs : List Vec3) (fv fns : List Nat) (i : Nat) (m : Mesh) : Option Mesh :=
  match fv.get? 0, fv.get? i, fv.get? (i + 1) with
  | some v0, some vi, some vj =>
    match (fns.get? 0).bind tempNs.get?, (fns.get? 1).bind tempNs.get?,
        (fns.get? 2).bind tempNs.get? with
    | some n0, some n1, some n2 =>
      some { m with
        indices := m.indices ++ [v0, vi, vj],
        normals := m.normals ++
          [n0.x, n0.y, n0.z, n1.x, n1.y, n1.z, n2.x, n2.y, n2.z] }
    | _, _, _ => none
  | _, _, _ => none

/-- The loop for (size_t i = 1; i < faceVerts.size() - 1; i++), run with
explicit fuel; the fuel passed by runTriLoop always suffices. -/
def triLoop (tempNs : List Vec3) (fv fns : List Nat) : Nat → Nat → Nat → Mesh → Option Mesh
  | 0, _, _, m => some m
  | fuel + 1, i, bound, m =>
    if i < bound then
      match triStep tempNs fv fns i m with
      | none => none
      | some m1 => triLoop tempNs fv fns fuel (i + 1) bound m1
    else some m

/-- The triangulation loop of lines 111-123 as run on a parsed face. -/
def runTriLoop (tempNs : List Vec3) (fv fns : List Nat) (m : Mesh) : Option Mesh :=
  triLoop tempNs fv fns (loopBound fv.length) 1 (loopBound fv.length) m

/-- The token loop of lines 101-108: parse every corner token into its
(position, normal) index pair; a stoul throw anywhere aborts (none). -/
def parseCorners : List (List Char) → Option (List (Nat × Nat))
  | [] => some []
  | t :: ts =>
    match parseCorner t, parseCorners ts with
    | some c, some cs => some (c :: cs)
    | _, _ => none

/-- Face-line handling, lines 96-124: tokenize, parse every corner (a
stoul throw aborts the program: none), then triangulate. -/
def processFace (tempNs : List Vec3) (rest : List Char) (m : Mesh) : Option Mesh :=
  match parseCorners (fields rest) with
  | none => none
  | some corners => runTriLoop tempNs (corners.map Prod.fst) (corners.map Prod.snd) m

/-- The loader's staging state: tempVertices, tempNormals and the mesh
being accumulated (lines 77-81). -/
structure PState where
  tempVertices : List Vec3
  tempNormals : List Vec3
  mesh : Mesh
deriving DecidableEq

/-- One iteration of the getline loop, lines 83-125: classify the line by
its leading characters; a v or vn line stages a vector (never failing), an
f line triangulates, and any other line is ignored. -/
def loadLine (st : PState) (line : List Char) : Option PState :=
  if line.take 2 = ['v', ' '] then
    some { st with tempVertices := st.tempVertices ++ [readVec3 (line.drop 2)] }
  else if line.take 3 = ['v', 'n', ' '] then
    some { st with tempNormals := st.tempNormals ++ [readVec3 (line.drop 3)] }
  else if line.take 2 = ['f', ' '] then
    match processFace st.tempNormals (line.drop 2) st.mesh with
    | none => none
    | some m => some { st with mesh := m }
  else some st

/-- The loader's initial state. -/
def initState : PState := ⟨[], [], ⟨[], [], [], []⟩⟩

/-- loadOBJ, lines 76-135, on the file's lines: run the line loop, then
append the staged positions to mesh.vertices, flattened in x, y, z order
(lines 128-132). -/
def loadOBJ (lines : List (List Char)) : Option Mesh :=
  match lines.foldlM loadLine initState with
  | none => none
  | some st =>
    some { st.mesh with
      vertices := st.mesh.vertices ++ (st.tempVertices.flatMap fun v => [v.x, v.y, v.z]) }

/-- Character lists of a list of string literals, for concrete sources. -/
def ofLines (ls : List String) : List (List Char) := ls.map String.data

/-- Camera state of lines 238-243: two orbit angles and the distance. -/
structure Camera where
  angleY : ℚ
  angleZ : ℚ
  cameraDistance : ℚ
deriving DecidableEq

/-- Which control keys are held during a frame. -/
structure Keys where
  keyA : Bool
  keyD : Bool
  keyW : Bool
  keyS : Bool
  keyQ : Bool
  keyE : Bool
deriving DecidableEq

/-- rotationSpeed of line 240. -/
def rotationSpeed : ℚ := 2

/-- zoomSpeed of line 241. -/
def zoomSpeed : ℚ := 10

/-- The lower clamp bound of line 272. -/
def minDistance : ℚ := 3 / 2

/-- The upper clamp bound of line 272. -/
def maxDistance : ℚ := 40

/-- glm::clamp(x, lo, hi) = min(max(x, lo), hi). -/
def clamp (x lo hi : ℚ) : ℚ := min (max x lo) hi

/-- The per-frame camera update of lines 256-272: additive angle and
distance changes for each held key, then the distance clamp. -/
def updateCamera (k : Keys) (dt : ℚ) (c : Camera) : Camera :=
  let aY1 := if k.keyA then c.angleY + rotationSpeed * dt else c.angleY
  let aY2 := if k.keyD then aY1 - rotationSpeed * dt else aY1
  let aZ1 := if k.keyW then c.angleZ + rotationSpeed * dt else c.angleZ
  let aZ2 := if k.keyS then aZ1 - rotationSpeed * dt else aZ1
  let d1 := if k.keyQ then c.cameraDistance - zoomSpeed * dt else c.cameraDistance
  let d2 := if k.keyE then d1 + zoomSpeed * dt else d1
  ⟨aY2, aZ2, clamp d2 minDistance maxDistance⟩

/-- Spec, refinement side (section 4.1 step 3): the fan-triangulation
triples (c0, ci, c(i+1)) of a corner list, for i = 1 .. n-2, flattened. -/
def fanIndices (fv : List Nat) : List Nat :=
  (List.range' 1 (fv.length - 2)).flatMap fun i =>
    [fv.getD 0 0, fv.getD i 0, fv.getD (i + 1) 0]

/-- Spec, refinement side (section 8): the staged positions of a source in
v-line order, ignoring interleaved vn and f lines. -/
def positionsSpec : List (List Char) → List Vec3
  | [] => []
  | l :: ls =>
    if l.take 2 = ['v', ' '] then readVec3 (l.drop 2) :: positionsSpec ls
    else positionsSpec ls

/-! Helper lemmas shared by the claim theorems. -/

theorem get?_isSome_of_lt {α : Type _} {l : List α} {n : Nat} (h : n < l.length) :
    (l.get? n).isSome := by
  induction l generalizing n with
  | nil => simp at h
  | cons a t ih =>
    cases n with
    | zero => simp [List.get?]
    | succ k => simpa [List.get?] using ih (by simpa using h)

theorem getD_eq_of_get? {l : List Nat} {n a : Nat} (h : l.get? n = some a) :
    l.getD n 0 = a := by
  induction l generalizing n with
  | nil => simp [List.get?] at h
  | cons x t ih =>
    cases n with
    | zero =>
      simp [List.get?] at h
      simp [List.getD, h]
    | succ k =>
      have h' : t.get? k = some a := by simpa [List.get?] using h
      simpa [List.getD] using ih h'

theorem length_flatMap_triple {α β : Type _} (l : List α) (f g h : α → β) :
    (l.flatMap fun a => [f a, g a, h a]).length = 3 * l.length := by
  induction l with
  | nil => simp
  | cons a t ih => simp [ih]; omega

theorem flatMap_triple_get? {α β : Type _} (f g h : α → β) :
    ∀ (l : List α) (k : Nat) (v : α), l.get? k = some v →
      (l.flatMap fun u => [f u, g u, h u]).get? (3 * k) = some (f v) ∧
      (l.flatMap fun u => [f u, g u, h u]).get? (3 * k + 1) = some (g v) ∧
      (l.flatMap fun u => [f u, g u, h u]).get? (3 * k + 2) = some (h v) := by
  intro l
  induction l with
  | nil => intro k v hv; simp [List.get?] at hv
  | cons u t ih =>
    intro k v hv
    cases k with
    | zero =>
      simp [List.get?] at hv
      subst hv
      refine ⟨rfl, rfl, rfl⟩
    | succ j =>
      have h' : t.get? j = some v := by simpa [List.get?] using hv
      have e3 : 3 * (j + 1) = 3 * j + 3 := by ring
      have step : ∀ (x y z : β) (r : List β) (n : Nat),
          (x :: y :: z :: r).get? (n + 3) = r.get? n := fun _ _ _ _ _ => rfl
      obtain ⟨h1, h2, h3⟩ := ih j v h'
      rw [e3]
      refine ⟨?_, ?_, ?_⟩
      · simpa [List.flatMap_cons, step] using h1
      · have : 3 * j + 3 + 1 = (3 * j + 1) + 3 := by ring
        rw [this]
        simpa [List.flatMap_cons, step] using h2
      · have : 3 * j + 3 + 2 = (3 * j + 2) + 3 := by ring
        rw [this]
        simpa [List.flatMap_cons, step] using h3

/-- One definitional unfolding of the triangulation loop at positive fuel. -/
theorem triLoop_succ (tempNs : List Vec3) (fv fns : List Nat) (f i bound : Nat) (m : Mesh) :
    triLoop tempNs fv fns (f + 1) i bound m =
      if i < bound then
        match triStep tempNs fv fns i m with
        | none => none
        | some m1 => triLoop tempNs fv fns f (i + 1) bound m1
      else some m := rfl

/-- The numeric value of loopBound: below 2^64 the subtraction does not
wrap (except at 0, where it wraps to 2^64 - 1). -/
theorem loopBound_of_pos {n : Nat} (h1 : 1 ≤ n) (h2 : n < U64) :
    loopBound n = n - 1 := by
  have hU : U64 = 18446744073709551616 := by norm_num [U64]
  unfold loopBound
  rw [hU]
  rw [hU] at h2
  omega

/-- What a successful triangulation step did to the mesh. -/
theorem triStep_some {tempNs : List Vec3} {fv fns : List Nat} {i : Nat} {m m' : Mesh}
    (h : triStep tempNs fv fns i m = some m') :
    ∃ v0 vi vj : Nat, ∃ n0 n1 n2 : Vec3,
      fv.get? 0 = some v0 ∧ fv.get? i = some vi ∧ fv.get? (i + 1) = some vj ∧
      (fns.get? 0).bind tempNs.get? = some n0 ∧
      (fns.get? 1).bind tempNs.get? = some n1 ∧
      (fns.get? 2).bind tempNs.get? = some n2 ∧
      m' = { m with
        indices := m.indices ++ [v0, vi, vj],
        normals := m.normals ++
          [n0.x, n0.y, n0.z, n1.x, n1.y, n1.z, n2.x, n2.y, n2.z] } := by
  unfold triStep at h
  split at h
  next v0 vi vj e1 e2 e3 =>
    split at h
    next n0 n1 n2 f1 f2 f3 =>
      cases h
      exact ⟨v0, vi, vj, n0, n1, n2, e1, e2, e3, f1, f2, f3, rfl⟩
    next => simp at h
  next => simp at h

/-- The indices a successful run of the triangulation loop appends: the
fan triples for i in [i0, bound). -/
theorem triLoop_indices (tempNs : List Vec3) (fv fns : List Nat) :
    ∀ (fuel i bound : Nat) (m m' : Mesh), bound ≤ i + fuel →
      triLoop tempNs fv fns fuel i bound m = some m' →
      m'.indices = m.indices ++ (List.range' i (bound - i)).flatMap
        (fun k => [fv.getD 0 0, fv.getD k 0, fv.getD (k + 1) 0]) := by
  intro fuel
  induction fuel with
  | zero =>
    intro i bound m m' hb h
    simp only [triLoop] at h
    cases h
    have hz : bound - i = 0 := by omega
    simp [hz]
  | succ f ih =>
    intro i bound m m' hb h
    by_cases hib : i < bound
    · simp only [triLoop, if_pos hib] at h
      cases hts : triStep tempNs fv fns i m with
      | none => rw [hts] at h; simp at h
      | some m1 =>
        rw [hts] at h
        have hrec := ih (i + 1) bound m1 m' (by omega) h
        obtain ⟨v0, vi, vj, n0, n1, n2, h0, hi, hj, _, _, _, hm1⟩ := triStep_some hts
        have e0 := getD_eq_of_get? h0
        have ei := getD_eq_of_get? hi
        have ej := getD_eq_of_get? hj
        have hsplit : bound - i = (bound - (i + 1)) + 1 := by omega
        subst hm1
        rw [hrec, hsplit, List.range'_succ, List.flatMap_cons]
        rw [e0, ei, ej]
        simp [List.append_assoc]
    · simp only [triLoop, if_neg hib] at h
      cases h
      have hz : bound - i = 0 := by omega
      simp [hz]

/-- Shape bookkeeping of a successful run of the triangulation loop:
vertices and edgeIndices untouched, three indices and one flattened normal
triple per appended corner. -/
theorem triLoop_shape (tempNs : List Vec3) (fv fns : List Nat) :
    ∀ (fuel i bound : Nat) (m m' : Mesh),
      triLoop tempNs fv fns fuel i bound m = some m' →
      m'.vertices = m.vertices ∧ m'.edgeIndices = m.edgeIndices ∧
      ∃ ws : List Vec3, m'.indices.length = m.indices.length + ws.length ∧
        3 ∣ ws.length ∧
        m'.normals = m.normals ++ ws.flatMap fun v => [v.x, v.y, v.z] := by
  intro fuel
  induction fuel with
  | zero =>
    intro i bound m m' h
    simp only [triLoop] at h
    cases h
    exact ⟨rfl, rfl, [], by simp, by simp, by simp⟩
  | succ f ih =>
    intro i bound m m' h
    by_cases hib : i < bound
    · simp only [triLoop, if_pos hib] at h
      cases hts : triStep tempNs fv fns i m with
      | none => rw [hts] at h; simp at h
      | some m1 =>
        rw [hts] at h
        obtain ⟨hv, he, ws, hil, hdvd, hns⟩ := ih (i + 1) bound m1 m' h
        obtain ⟨v0, vi, vj, n0, n1, n2, _, _, _, _, _, _, hm1⟩ := triStep_some hts
        subst hm1
        refine ⟨hv, he, [n0, n1, n2] ++ ws, ?_, ?_, ?_⟩
        · simp at hil ⊢; omega
        · simpa using Nat.dvd_add ⟨1, rfl⟩ hdvd
        · rw [hns]
          simp [List.flatMap_cons]
    · simp only [triLoop, if_neg hib] at h
      cases h
      exact ⟨rfl, rfl, [], by simp, by simp, by simp⟩

/-- A corner token that fails to parse makes the whole face abort. -/
theorem parseCorners_none {ts : List (List Char)} {t : List Char}
    (ht : t ∈ ts) (h : parseCorner t = none) : parseCorners ts = none := by
  induction ts with
  | nil => simp at ht
  | cons a l ih =>
    rcases List.mem_cons.mp ht with rfl | hmem
    · unfold parseCorners
      rw [h]
    · unfold parseCorners
      rw [ih hmem]
      cases parseCorner a <;> rfl

/-- What a successful processFace run is made of. -/
theorem processFace_some {tempNs : List Vec3} {rest : List Char} {m m' : Mesh}
    (h : processFace tempNs rest m = some m') :
    ∃ corners : List (Nat × Nat), parseCorners (fields rest) = some corners ∧
      runTriLoop tempNs (corners.map Prod.fst) (corners.map Prod.snd) m = some m' := by
  unfold processFace at h
  split at h
  next => simp at h
  next corners hc => exact ⟨corners, hc, h⟩

/-- How one line changes the loader state: a v line appends exactly one
staged position and leaves the mesh alone; every other line leaves the
staged positions alone and changes the mesh only by triangle shape
bookkeeping. -/
theorem loadLine_cases {st st1 : PState} {l : List Char}
    (h : loadLine st l = some st1) :
    (l.take 2 = ['v', ' '] ∧
      st1 = { st with tempVertices := st.tempVertices ++ [readVec3 (l.drop 2)] }) ∨
    (l.take 2 ≠ ['v', ' '] ∧ st1.tempVertices = st.tempVertices ∧
      st1.mesh.vertices = st.mesh.vertices ∧
      st1.mesh.edgeIndices = st.mesh.edgeIndices ∧
      ∃ ws : List Vec3, st1.mesh.indices.length = st.mesh.indices.length + ws.length ∧
        3 ∣ ws.length ∧
        st1.mesh.normals = st.mesh.normals ++ ws.flatMap fun v => [v.x, v.y, v.z]) := by
  unfold loadLine at h
  by_cases hv : l.take 2 = ['v', ' ']
  · rw [if_pos hv] at h
    cases h
    exact Or.inl ⟨hv, rfl⟩
  · rw [if_neg hv] at h
    refine Or.inr ⟨hv, ?_⟩
    by_cases hvn : l.take 3 = ['v', 'n', ' ']
    · rw [if_pos hvn] at h
      cases h
      exact ⟨rfl, rfl, rfl, [], by simp, by simp, by simp⟩
    · rw [if_neg hvn] at h
      by_cases hf : l.take 2 = ['f', ' ']
      · rw [if_pos hf] at h
        cases hpf : processFace st.tempNormals (l.drop 2) st.mesh with
        | none => rw [hpf] at h; simp at h
        | some m1 =>
          rw [hpf] at h
          cases h
          obtain ⟨corners, _, hrun⟩ := processFace_some hpf
          obtain ⟨hvtx, hedge, ws, hlen, hdvd, hns⟩ :=
            triLoop_shape st.tempNormals (corners.map Prod.fst) (corners.map Prod.snd)
              _ _ _ _ _ hrun
          exact ⟨rfl, hvtx, hedge, ws, hlen, hdvd, hns⟩
      · rw [if_neg hf] at h
        cases h
        exact ⟨rfl, rfl, rfl, [], by simp, by simp, by simp⟩

/-- The line-loop invariant: staged positions accumulate in v-line order
and the mesh gathers whole flattened normal triples, three indices per
triple, never touching vertices or edgeIndices. -/
theorem foldLoad_spec :
    ∀ (lines : List (List Char)) (st st' : PState),
      lines.foldlM loadLine st = some st' →
      st'.tempVertices = st.tempVertices ++ positionsSpec lines ∧
      st'.mesh.vertices = st.mesh.vertices ∧
      st'.mesh.edgeIndices = st.mesh.edgeIndices ∧
      ∃ ws : List Vec3, st'.mesh.indices.length = st.mesh.indices.length + ws.length ∧
        3 ∣ ws.length ∧
        st'.mesh.normals = st.mesh.normals ++ ws.flatMap fun v => [v.x, v.y, v.z] := by
  intro lines
  induction lines with
  | nil =>
    intro st st' h
    simp only [List.foldlM] at h
    cases h
    exact ⟨by simp [positionsSpec], rfl, rfl, [], by simp, by simp, by simp⟩
  | cons l ls ih =>
    intro st st' h
    simp only [List.foldlM] at h
    cases hll : loadLine st l with
    | none => rw [hll] at h; simp at h
    | some st1 =>
      rw [hll] at h
      obtain ⟨hv1, hm1, he1, ws1, hl1, hd1, hn1⟩ := ih st1 st' h
      rcases loadLine_cases hll with ⟨hv, rfl⟩ | ⟨hv, htv, hmv, hme, ws0, hl0, hd0, hn0⟩
      · refine ⟨?_, hm1, he1, ws1, hl1, hd1, hn1⟩
        rw [hv1]
        simp [positionsSpec, hv]
      · refine ⟨?_, hm1.trans hmv, he1.trans hme, ws0 ++ ws1, ?_, ?_, ?_⟩
        · rw [hv1, htv]
          simp [positionsSpec, hv]
        · rw [hl1, hl0]
          simp only [List.length_append]
          omega
        · simpa using Nat.dvd_add hd0 hd1
        · rw [hn1, hn0]
          simp [List.flatMap_append]

/-- Claim C2: for a face with corners c0 .. c(n-1), n at least 3 (and n a
representable size_t value), a completed triangulation loop appends to the
index list exactly the fan triples (c0, ci, c(i+1)) for i = 1 .. n-2 in
that order, which is 3 * (n - 2) indices, that is, n - 2 triangles. -/
theorem c2_fan_triangulation (tempNs : List Vec3) (fv fns : List Nat) (m m' : Mesh)
    (h3 : 3 ≤ fv.length) (hs : fv.length < U64)
    (h : runTriLoop tempNs fv fns m = some m') :
    m'.indices = m.indices ++ fanIndices fv ∧
    m'.indices.length = m.indices.length + 3 * (fv.length - 2) := by
  unfold runTriLoop at h
  have hb : loopBound fv.length = fv.length - 1 := loopBound_of_pos (by omega) hs
  rw [hb] at h
  have hmain := triLoop_indices tempNs fv fns (fv.length - 1) 1 (fv.length - 1) m m'
    (by omega) h
  have he : fv.length - 1 - 1 = fv.length - 2 := by omega
  rw [he] at hmain
  have hfan : m'.indices = m.indices ++ fanIndices fv := by
    rw [hmain]
    rfl
  refine ⟨hfan, ?_⟩
  rw [hfan]
  unfold fanIndices
  rw [List.length_append, length_flatMap_triple]
  simp

/-- Claim C3: any mesh the loader returns has an index count divisible by
3 and one 3-float normal tuple per triangle corner, that is, the float
count of normals is three times the index count (so the tuple count equals
the index count). -/
theorem c3_mesh_shape (lines : List (List Char)) (m : Mesh)
    (h : loadOBJ lines = some m) :
    m.indices.length % 3 = 0 ∧ m.normals.length = 3 * m.indices.length := by
  unfold loadOBJ at h
  cases hf : lines.foldlM loadLine initState with
  | none => rw [hf] at h; simp at h
  | some st =>
    rw [hf] at h
    cases h
    obtain ⟨_, _, _, ws, hlen, hdvd, hns⟩ := foldLoad_spec lines initState st hf
    have hi : st.mesh.indices.length = ws.length := by
      simpa [initState] using hlen
    obtain ⟨t, ht⟩ := hdvd
    constructor
    · show st.mesh.indices.length % 3 = 0
      omega
    · show st.mesh.normals.length = 3 * st.mesh.indices.length
      rw [hns, hi]
      have hlf := length_flatMap_triple ws (fun v : Vec3 => v.x) (fun v => v.y) (fun v => v.z)
      simpa [initState] using hlf

/-- Witness for c2_fan_triangulation: the spec's 4-corner example face
yields exactly the two fan triangles (0,1,2) and (0,2,3). -/
theorem c2_fan_triangulation_witness :
    3 ≤ ([0, 1, 2, 3] : List Nat).length ∧
    (⟨[], [1, 0, 0, 1, 0, 0, 1, 0, 0, 1, 0, 0, 1, 0, 0, 1, 0, 0],
        [0, 1, 2, 0, 2, 3], []⟩ : Mesh).indices =
      (⟨[], [], [], []⟩ : Mesh).indices ++ fanIndices [0, 1, 2, 3] :=
  ⟨by decide,
    (c2_fan_triangulation [⟨1, 0, 0⟩] [0, 1, 2, 3] [0, 0, 0, 0] ⟨[], [], [], []⟩
      ⟨[], [1, 0, 0, 1, 0, 0, 1, 0, 0, 1, 0, 0, 1, 0, 0, 1, 0, 0],
        [0, 1, 2, 0, 2, 3], []⟩
      (by decide) (by norm_num [U64]) (by with_unfolding_all rfl)).1⟩

/-- Claim C3 witness: the spec's one-triangle example source. -/
theorem c3_mesh_shape_witness :
    loadOBJ (ofLines ["v 0 0 0", "v 1 0 0", "v 0 1 0", "vn 0 0 1", "f 1//1 2//1 3//1"]) =
      some ⟨[0, 0, 0, 1, 0, 0, 0, 1, 0], [0, 0, 1, 0, 0, 1, 0, 0, 1], [0, 1, 2], []⟩ ∧
    (⟨[0, 0, 0, 1, 0, 0, 0, 1, 0], [0, 0, 1, 0, 0, 1, 0, 0, 1], [0, 1, 2], []⟩ : Mesh).indices.length % 3 = 0 ∧
    (⟨[0, 0, 0, 1, 0, 0, 0, 1, 0], [0, 0, 1, 0, 0, 1, 0, 0, 1], [0, 1, 2], []⟩ : Mesh).normals.length =
      3 * (⟨[0, 0, 0, 1, 0, 0, 0, 1, 0], [0, 0, 1, 0, 0, 1, 0, 0, 1], [0, 1, 2], []⟩ : Mesh).indices.length :=
  ⟨by with_unfolding_all rfl,
    c3_mesh_shape (ofLines ["v 0 0 0", "v 1 0 0", "v 0 1 0", "vn 0 0 1", "f 1//1 2//1 3//1"])
      ⟨[0, 0, 0, 1, 0, 0, 0, 1, 0], [0, 0, 1, 0, 0, 1, 0, 0, 1], [0, 1, 2], []⟩
      (by with_unfolding_all rfl)⟩

/-- Claim C4 counterexample: a source whose face line has only 2 corners
parses successfully (returning a mesh with no triangles), it does not fail. -/
theorem c4_counterexample :
    loadOBJ (ofLines ["v 0 0 0", "v 1 0 0", "vn 0 0 1", "f 1//1 2//1"]) =
      some ⟨[0, 0, 0, 1, 0, 0], [], [], []⟩ := by
  with_unfolding_all rfl

/-- Claim C4 amended: a face line with one or two corners emits no
geometry and parsing continues successfully (the loop body never runs); a
face line with zero corner tokens makes the size_t loop bound wrap around
to 2^64 - 1 and the first corner access goes out of bounds (undefined
behaviour, modelled as none). -/
theorem c4_short_faces (tempNs : List Vec3) (fv fns : List Nat) (m : Mesh) :
    (fv.length = 1 ∨ fv.length = 2 → runTriLoop tempNs fv fns m = some m) ∧
    (fv.length = 0 → runTriLoop tempNs fv fns m = none) := by
  constructor
  · intro h
    unfold runTriLoop
    rcases h with h | h <;> rw [h]
    · have hb : loopBound 1 = 0 := by norm_num [loopBound, U64]
      rw [hb]
      rfl
    · have hb : loopBound 2 = 1 := by norm_num [loopBound, U64]
      rw [hb]
      simp [triLoop]
  · intro h
    have hfv : fv = [] := List.length_eq_zero.mp h
    subst hfv
    unfold runTriLoop
    have hb : loopBound (List.length ([] : List Nat)) = (U64 - 2) + 1 := by
      norm_num [loopBound, U64]
    rw [hb, triLoop_succ, if_pos (show 1 < (U64 - 2) + 1 by norm_num [U64])]
    have hstep : triStep tempNs [] fns 1 m = none := rfl
    rw [hstep]

/-- Witness for c4_short_faces: a concrete 2-corner face. -/
theorem c4_short_faces_witness :
    ([7, 8] : List Nat).length = 2 ∧
    runTriLoop [] [7, 8] [0, 0] ⟨[], [], [], []⟩ = some ⟨[], [], [], []⟩ :=
  ⟨by decide, (c4_short_faces [] [7, 8] [0, 0] ⟨[], [], [], []⟩).1 (Or.inr (by decide))⟩

/-- Claim C5 counterexample: the malformed numeric token x in a v line is
silently written as 0 (C++11 num_get failure semantics) and parsing
succeeds, rather than failing. -/
theorem c5_counterexample :
    loadOBJ (ofLines ["v 1 2 x"]) = some ⟨[1, 2, 0], [], [], []⟩ := by
  with_unfolding_all rfl

/-- Claim C5 amended: v and vn lines never fail, whatever their tokens
look like (a failed extraction writes 0 and later components keep their
zero defaults); only in an f line does a malformed corner token abort
(std::stoul throws). -/
theorem c5_malformed_tokens :
    (∀ (st : PState) (line : List Char), line.take 2 = ['v', ' '] →
      loadLine st line =
        some { st with tempVertices := st.tempVertices ++ [readVec3 (line.drop 2)] }) ∧
    (∀ (st : PState) (line : List Char), line.take 2 ≠ ['v', ' '] →
      line.take 3 = ['v', 'n', ' '] →
      loadLine st line =
        some { st with tempNormals := st.tempNormals ++ [readVec3 (line.drop 3)] }) ∧
    (∀ (tempNs : List Vec3) (rest : List Char) (m : Mesh),
      (∃ t ∈ fields rest, parseCorner t = none) → processFace tempNs rest m = none) := by
  refine ⟨?_, ?_, ?_⟩
  · intro st line h
    simp [loadLine, h]
  · intro st line h1 h2
    simp [loadLine, h1, h2]
  · intro tempNs rest m h
    obtain ⟨t, ht, hp⟩ := h
    unfold processFace
    rw [parseCorners_none ht hp]

/-- Witness for c5_malformed_tokens: a v line with trailing garbage still
stages a vector, and a face line with a non-numeric corner aborts. -/
theorem c5_malformed_tokens_witness :
    "v 1 2 x".data.take 2 = ['v', ' '] ∧
    loadLine initState ("v 1 2 x".data) =
      some { initState with
        tempVertices := initState.tempVertices ++ [readVec3 ("v 1 2 x".data.drop 2)] } ∧
    processFace [] ("x//1 2//1".data) ⟨[], [], [], []⟩ = none :=
  ⟨by decide, c5_malformed_tokens.1 initState ("v 1 2 x".data) (by decide),
    c5_malformed_tokens.2.2 [] ("x//1 2//1".data) ⟨[], [], [], []⟩
      ⟨"x//1".data, by decide, by decide⟩⟩

/-- Claim C6 counterexample: a face whose corners carry no normal index at
all (no slash in the token) parses successfully; the position number is
silently reused as the normal number, there is no fatal error. -/
theorem c6_counterexample :
    loadOBJ (ofLines ["v 0 0 0", "v 1 0 0", "v 0 1 0",
        "vn 1 0 0", "vn 0 1 0", "vn 0 0 1", "f 1 2 3"]) =
      some ⟨[0, 0, 0, 1, 0, 0, 0, 1, 0], [1, 0, 0, 0, 1, 0, 0, 0, 1], [0, 1, 2], []⟩ := by
  with_unfolding_all rfl

/-- Claim C6 amended: a corner token with no slash reuses its position
number as its normal number (find returns npos and npos + 1 wraps to 0, so
both substrings are the whole token), so a missing normal index is not
detected; and a normal index out of range of the staging list makes the
triangulation step an unchecked out-of-bounds read (undefined behaviour,
modelled as none), not a diagnosable error. -/
theorem c6_normal_index_fallback :
    (∀ tok : List Char, findFrom tok '/' 0 = none →
      parseCorner tok = (stoul tok).map fun v => (sub1u32 v, sub1u32 v)) ∧
    (∀ (tempNs : List Vec3) (fv fns : List Nat) (i : Nat) (m : Mesh) (j0 : Nat),
      fns.get? 0 = some j0 → tempNs.length ≤ j0 →
      triStep tempNs fv fns i m = none) := by
  constructor
  · intro tok h
    simp only [parseCorner, h]
    cases h2 : stoul tok <;> simp [h2]
  · intro tempNs fv fns i m j0 h0 hle
    have hnone : (fns.get? 0).bind tempNs.get? = none := by
      rw [h0]
      exact List.get?_eq_none.mpr hle
    unfold triStep
    cases e0 : fv.get? 0 with
    | none => rfl
    | some v0 =>
      cases e1 : fv.get? i with
      | none => rfl
      | some vi =>
        cases e2 : fv.get? (i + 1) with
        | none => rfl
        | some vj =>
          rw [hnone]

/-- Witness for c6_normal_index_fallback: corner token 3 parses as
position 2 and normal 2, and a reference to normal 0 with an empty staging
list aborts the step. -/
theorem c6_normal_index_fallback_witness :
    findFrom "3".data '/' 0 = none ∧
    parseCorner "3".data = (stoul "3".data).map (fun v => (sub1u32 v, sub1u32 v)) ∧
    ([] : List Vec3).length ≤ 0 ∧
    triStep [] [0, 1, 2] [0, 1, 2] 1 ⟨[], [], [], []⟩ = none :=
  ⟨by decide, c6_normal_index_fallback.1 ("3".data) (by decide), by decide,
    c6_normal_index_fallback.2 [] [0, 1, 2] [0, 1, 2] 1 ⟨[], [], [], []⟩ 0
      (by decide) (by decide)⟩

/-- Claim C1 (code bug, lines 117-122): on a quad face whose four corners
reference four different normals, the loader emits for the second triangle
(corners 0, 2, 3) the normals of corners 0, 1, 2 again — the inner loop
indexes faceNormals by its own counter j = 0, 1, 2 for every triangle of
the fan instead of by the triangle's corners 0, i, i+1 — so the appended
normals are not the ones referenced by that triangle's corners: the code's
normal list differs from the claim's expected one (normals of corners
0, 2, 3, which are the staged normals 1, 3 and 4 in file order). -/
theorem c1_normals_bug :
    loadOBJ (ofLines ["v 0 0 0", "v 1 0 0", "v 1 1 0", "v 0 1 0",
        "vn 1 0 0", "vn 0 1 0", "vn 0 0 1", "vn 1 1 1", "f 1//1 2//2 3//3 4//4"]) =
      some ⟨[0, 0, 0, 1, 0, 0, 1, 1, 0, 0, 1, 0],
            [1, 0, 0, 0, 1, 0, 0, 0, 1, 1, 0, 0, 0, 1, 0, 0, 0, 1],
            [0, 1, 2, 0, 2, 3], []⟩ ∧
    ([1, 0, 0, 0, 1, 0, 0, 0, 1, 1, 0, 0, 0, 1, 0, 0, 0, 1] : List ℚ) ≠
      [1, 0, 0, 0, 1, 0, 0, 0, 1, 1, 0, 0, 0, 0, 1, 1, 1, 1] :=
  ⟨by with_unfolding_all rfl, by norm_num⟩

/-- Claim C7: parsing is order-preserving.  The mesh's vertex floats are
exactly the staged v-line triples, in v-line order and unaffected by
interleaved vn and f lines, flattened x, y, z; so the k-th v line gives
the components at slots 3k, 3k+1, 3k+2.  The normal floats are likewise
whole 3-float tuples flattened in x, y, z order. -/
theorem c7_order_preserving (lines : List (List Char)) (m : Mesh)
    (h : loadOBJ lines = some m) :
    m.vertices = (positionsSpec lines).flatMap (fun v => [v.x, v.y, v.z]) ∧
    (∀ (k : Nat) (v : Vec3), (positionsSpec lines).get? k = some v →
      m.vertices.get? (3 * k) = some v.x ∧
      m.vertices.get? (3 * k + 1) = some v.y ∧
      m.vertices.get? (3 * k + 2) = some v.z) ∧
    (∃ ns : List Vec3, m.normals = ns.flatMap fun v => [v.x, v.y, v.z]) := by
  unfold loadOBJ at h
  cases hf : lines.foldlM loadLine initState with
  | none => rw [hf] at h; simp at h
  | some st =>
    rw [hf] at h
    cases h
    obtain ⟨htv, hmv, _, ws, _, _, hns⟩ := foldLoad_spec lines initState st hf
    have hvert : st.mesh.vertices ++ (st.tempVertices.flatMap fun v => [v.x, v.y, v.z]) =
        (positionsSpec lines).flatMap fun v => [v.x, v.y, v.z] := by
      rw [hmv, htv]
      simp [initState]
    refine ⟨hvert, fun k v hk => ?_, ws, ?_⟩
    · have hg := flatMap_triple_get? (fun u : Vec3 => u.x) (fun u => u.y) (fun u => u.z)
        (positionsSpec lines) k v hk
      refine ⟨?_, ?_, ?_⟩
      · show (st.mesh.vertices ++ (st.tempVertices.flatMap fun v => [v.x, v.y, v.z])).get?
          (3 * k) = some v.x
        rw [hvert]
        exact hg.1
      · show (st.mesh.vertices ++ (st.tempVertices.flatMap fun v => [v.x, v.y, v.z])).get?
          (3 * k + 1) = some v.y
        rw [hvert]
        exact hg.2.1
      · show (st.mesh.vertices ++ (st.tempVertices.flatMap fun v => [v.x, v.y, v.z])).get?
          (3 * k + 2) = some v.z
        rw [hvert]
        exact hg.2.2
    · show st.mesh.normals = ws.flatMap fun v => [v.x, v.y, v.z]
      rw [hns]
      simp [initState]

/-- Witness for c7_order_preserving: a source with a vn line, an f line
and a trailing v line interleaved between the v lines. -/
theorem c7_order_preserving_witness :
    loadOBJ (ofLines ["v 0 0 0", "vn 0 0 1", "v 1 0 0", "f 1//1 2//1 3//1", "v 0 1 0"]) =
      some ⟨[0, 0, 0, 1, 0, 0, 0, 1, 0], [0, 0, 1, 0, 0, 1, 0, 0, 1], [0, 1, 2], []⟩ ∧
    (⟨[0, 0, 0, 1, 0, 0, 0, 1, 0], [0, 0, 1, 0, 0, 1, 0, 0, 1], [0, 1, 2], []⟩ : Mesh).vertices =
      (positionsSpec (ofLines ["v 0 0 0", "vn 0 0 1", "v 1 0 0", "f 1//1 2//1 3//1", "v 0 1 0"])).flatMap
        (fun v => [v.x, v.y, v.z]) :=
  ⟨by with_unfolding_all rfl,
    (c7_order_preserving (ofLines ["v 0 0 0", "vn 0 0 1", "v 1 0 0", "f 1//1 2//1 3//1", "v 0 1 0"])
      ⟨[0, 0, 0, 1, 0, 0, 0, 1, 0], [0, 0, 1, 0, 0, 1, 0, 0, 1], [0, 1, 2], []⟩
      (by with_unfolding_all rfl)).1⟩

/-- Claim C8: after every per-frame update the camera distance lies in the
closed interval [minDistance, maxDistance] = [1.5, 40]; a distance pushed
past a bound by held zoom input saturates at that bound, so zooming in at
minDistance stays at minDistance and zooming out at maxDistance stays at
maxDistance. -/
theorem c8_distance_clamp (k : Keys) (dt : ℚ) (c : Camera) :
    (minDistance ≤ (updateCamera k dt c).cameraDistance ∧
      (updateCamera k dt c).cameraDistance ≤ maxDistance) ∧
    (0 ≤ dt → k.keyQ = true → k.keyE = false → c.cameraDistance = minDistance →
      (updateCamera k dt c).cameraDistance = minDistance) ∧
    (0 ≤ dt → k.keyE = true → k.keyQ = false → c.cameraDistance = maxDistance →
      (updateCamera k dt c).cameraDistance = maxDistance) := by
  have hlohi : minDistance ≤ maxDistance := by norm_num [minDistance, maxDistance]
  refine ⟨⟨?_, ?_⟩, ?_, ?_⟩
  · simp only [updateCamera, clamp]
    exact le_min (le_max_right _ _) hlohi
  · simp only [updateCamera, clamp]
    exact min_le_right _ _
  · intro hdt hq he hc
    have hz : 0 ≤ zoomSpeed * dt := mul_nonneg (by norm_num [zoomSpeed]) hdt
    simp only [updateCamera, clamp, hq, he, if_true, if_false, Bool.false_eq_true]
    rw [hc]
    rw [max_eq_right (by linarith), min_eq_left hlohi]
  · intro hdt he hq hc
    have hz : 0 ≤ zoomSpeed * dt := mul_nonneg (by norm_num [zoomSpeed]) hdt
    simp only [updateCamera, clamp, hq, he, if_true, if_false, Bool.false_eq_true]
    rw [hc]
    rw [max_eq_left (by linarith), min_eq_right (by linarith)]

/-- Witness for c8_distance_clamp: one frame of zoom-in at the lower bound
stays at the lower bound. -/
theorem c8_distance_clamp_witness :
    (0 : ℚ) ≤ 1 ∧
    (updateCamera ⟨false, false, false, false, true, false⟩ 1
        ⟨0, 0, minDistance⟩).cameraDistance = minDistance :=
  ⟨by norm_num,
    (c8_distance_clamp ⟨false, false, false, false, true, false⟩ 1 ⟨0, 0, minDistance⟩).2.1
      (by norm_num) rfl rfl rfl⟩

/-- Claim C9: with zero elapsed time no held control signal changes the
camera state, provided the distance already lies within the clamp bounds. -/
theorem c9_zero_delta (k : Keys) (c : Camera)
    (h1 : minDistance ≤ c.cameraDistance) (h2 : c.cameraDistance ≤ maxDistance) :
    updateCamera k 0 c = c := by
  cases c with
  | mk aY aZ d =>
    dsimp only at h1 h2
    simp only [updateCamera, mul_zero, add_zero, sub_zero, ite_self, clamp,
      Camera.mk.injEq, true_and]
    rw [max_eq_left h1, min_eq_left h2]

/-- Witness for c9_zero_delta: all six keys held, zero delta, state kept. -/
theorem c9_zero_delta_witness :
    minDistance ≤ (5 : ℚ) ∧ (5 : ℚ) ≤ maxDistance ∧
    updateCamera ⟨true, true, true, true, true, true⟩ 0 ⟨1, 2, 5⟩ = ⟨1, 2, 5⟩ :=
  ⟨by norm_num [minDistance], by norm_num [maxDistance],
    c9_zero_delta ⟨true, true, true, true, true, true⟩ ⟨1, 2, 5⟩
      (show minDistance ≤ (5 : ℚ) by norm_num [minDistance])
      (show (5 : ℚ) ≤ maxDistance by norm_num [maxDistance])⟩

/-- Claim C10: for a face with at least one corner token (so faceVerts and
faceNormals are nonempty parallel lists of equal length), every index the
triangulation loop uses on faceVerts (0, i, i+1) and on faceNormals
(0, 1, 2) is within bounds for every iteration i of the loop, so the
out-of-range branch of the Option-style accesses is unreachable. -/
theorem c10_loop_accesses (fv fns : List Nat)
    (h1 : 1 ≤ fv.length) (hlen : fns.length = fv.length) :
    ∀ i : Nat, 1 ≤ i → i < loopBound fv.length →
      (fv.get? 0).isSome ∧ (fv.get? i).isSome ∧ (fv.get? (i + 1)).isSome ∧
      (fns.get? 0).isSome ∧ (fns.get? 1).isSome ∧ (fns.get? 2).isSome := by
  intro i hi hib
  have hU : U64 = 18446744073709551616 := by norm_num [U64]
  have hble : loopBound fv.length ≤ fv.length - 1 := by
    unfold loopBound
    rw [hU]
    omega
  exact ⟨get?_isSome_of_lt (by omega), get?_isSome_of_lt (by omega),
    get?_isSome_of_lt (by omega), get?_isSome_of_lt (by omega),
    get?_isSome_of_lt (by omega), get?_isSome_of_lt (by omega)⟩

/-- Witness for c10_loop_accesses: a concrete 4-corner face. -/
theorem c10_loop_accesses_witness :
    1 ≤ ([4, 5, 6, 7] : List Nat).length ∧
    ([9, 9, 9, 9] : List Nat).length = ([4, 5, 6, 7] : List Nat).length ∧
    (∀ i : Nat, 1 ≤ i → i < loopBound ([4, 5, 6, 7] : List Nat).length →
      (([4, 5, 6, 7] : List Nat).get? 0).isSome ∧
      (([4, 5, 6, 7] : List Nat).get? i).isSome ∧
      (([4, 5, 6, 7] : List Nat).get? (i + 1)).isSome ∧
      (([9, 9, 9, 9] : List Nat).get? 0).isSome ∧
      (([9, 9, 9, 9] : List Nat).get? 1).isSome ∧
      (([9, 9, 9, 9] : List Nat).get? 2).isSome) :=
  ⟨by decide, by decide, c10_loop_accesses [4, 5, 6, 7] [9, 9, 9, 9] (by decide) (by decide)⟩

end ObjViewer
